import Mathlib

/-
  Verification development for the router-lite route registry
  (package registry, registry.go) and its NATS message adapter
  (package mbus, subscriber.go).

  The registry orchestrator and the adapter are embedded directly from
  their Go sources.  The collaborator types `route.Endpoint`,
  `route.Pool`, `route.Uri` and `container.Trie` are not part of the
  sources at hand; they are modelled from the specification's data
  model (§3) and component contracts (§4).  Timestamps and durations
  are naturals; Go's `time.Now()` is made explicit as a `now : Nat`
  parameter of the operations that read the clock.  Locking and the
  background ticker are concurrency machinery and are not modelled;
  every operation below is the body that runs under the registry lock.
-/

namespace RouterLite

/-- Modelled from the spec: `route.Endpoint` (§3, §4.2) — application id,
host/port, private instance id and index, tag mapping, an optional
per-endpoint staleness override, an optional route-service URL, and a
last-updated timestamp.  The modification tag plays no role in the
registry logic at hand and is omitted. -/
structure Endpoint where
  applicationId : String
  host : String
  port : Nat
  privateInstanceId : String
  privateInstanceIndex : String
  tags : List (String × String)
  staleThresholdOverride : Option Nat
  routeServiceUrl : String
  updatedAt : Nat
deriving DecidableEq, Repr

/-- Modelled from the spec: `Endpoint.CanonicalAddr()` returns `host:port`
(§4.2); it is the identity key for pool membership. -/
def Endpoint.canonicalAddr (e : Endpoint) : String :=
  e.host ++ ":" ++ toString e.port

/-- Modelled from the spec: `route.NewEndpoint` (§4.2, §6) — construction
from the inbound message fields; a zero staleness threshold stands for an
absent override (Go's zero value for the optional per-message field). -/
def NewEndpoint (app host : String) (port : Nat) (id index : String)
    (tags : List (String × String)) (staleThresholdInSeconds : Nat)
    (routeServiceUrl : String) : Endpoint :=
  { applicationId := app
    host := host
    port := port
    privateInstanceId := id
    privateInstanceIndex := index
    tags := tags
    staleThresholdOverride :=
      if staleThresholdInSeconds = 0 then none else some staleThresholdInSeconds
    routeServiceUrl := routeServiceUrl
    updatedAt := 0 }

/-- Modelled from the spec: `route.Pool` (§3, §4.3) — a set of endpoints
keyed by canonical address, a pool-level default staleness threshold
(zero stands for unset, Go's zero Duration), and the context path fixed
at creation. -/
structure Pool where
  endpoints : List Endpoint
  threshold : Nat
  contextPath : String
deriving DecidableEq, Repr

/-- Modelled from the spec: `route.NewPool(threshold, contextPath)` creates
an empty pool (§3, §4.3). -/
def NewPool (threshold : Nat) (contextPath : String) : Pool :=
  { endpoints := [], threshold := threshold, contextPath := contextPath }

/-- Modelled from the spec: `Pool.Put(endpoint)` inserts or overwrites by
canonical address and always refreshes the entry's last-updated timestamp
to now (§4.3).  Iteration order inside the pool is unspecified (§4.3), so
the overwrite is rendered as remove-then-append. -/
def Pool.put (p : Pool) (now : Nat) (e : Endpoint) : Pool :=
  { p with endpoints :=
      p.endpoints.filter (fun x => x.canonicalAddr ≠ e.canonicalAddr)
        ++ [{ e with updatedAt := now }] }

/-- Modelled from the spec: `Pool.Remove(endpoint)` deletes by canonical
address regardless of the other field values (§4.3). -/
def Pool.remove (p : Pool) (e : Endpoint) : Pool :=
  { p with endpoints :=
      p.endpoints.filter (fun x => x.canonicalAddr ≠ e.canonicalAddr) }

/-- Modelled from the spec: `Pool.IsEmpty()` is true iff the address
mapping is empty (§4.3). -/
def Pool.isEmpty (p : Pool) : Bool :=
  p.endpoints.isEmpty

/-- Modelled from the spec: `Pool.MarkUpdated(now)` sets every endpoint's
last-updated timestamp to now without altering other fields (§4.3). -/
def Pool.markUpdated (p : Pool) (now : Nat) : Pool :=
  { p with endpoints := p.endpoints.map (fun x => { x with updatedAt := now }) }

/-- Modelled from the spec: the staleness threshold that applies to one
endpoint — its own override if set, else the pool's threshold, else the
default passed to `PruneEndpoints` (§4.3). -/
def Pool.thresholdFor (p : Pool) (e : Endpoint) (defaultThreshold : Nat) : Nat :=
  match e.staleThresholdOverride with
  | some t => t
  | none => if p.threshold ≠ 0 then p.threshold else defaultThreshold

/-- Modelled from the spec: an endpoint is stale when `now - lastUpdated`
exceeds its applicable threshold (§4.3). -/
def Pool.isStale (p : Pool) (now defaultThreshold : Nat) (e : Endpoint) : Bool :=
  decide (now - e.updatedAt > p.thresholdFor e defaultThreshold)

/-- Modelled from the spec: `Pool.PruneEndpoints(defaultThreshold)` removes
every stale endpoint and returns the removed set (§4.3). -/
def Pool.pruneEndpoints (p : Pool) (now defaultThreshold : Nat) : Pool × List Endpoint :=
  ({ p with endpoints := p.endpoints.filter (fun e => !(p.isStale now defaultThreshold e)) },
   p.endpoints.filter (fun e => p.isStale now defaultThreshold e))

/-- A trie key: the URI's segment list (the spec's trie is keyed by URI
segments, §3). -/
abbrev Key := List String

/-- Modelled from the spec: `container.Trie` (§3, §4.4).  The trie is
specified through its exact-match contract — `Find`/`MatchUri` are exact
lookups of a key, `Insert` attaches a pool at a key, `Delete` removes it
and `Snip` excises the nodes of emptied pools — so the observable state
is the mapping from route key to Pool.  We model that mapping as an
association list; an absent entry stands for the absence of a
pool-bearing node on that key's path. -/
structure Trie where
  entries : List (Key × Pool)
deriving DecidableEq, Repr

/-- Modelled from the spec: `container.NewTrie()` — the empty table. -/
def NewTrie : Trie := ⟨[]⟩

/-- First-match lookup in an entry list. -/
def findEntries (k : Key) : List (Key × Pool) → Option Pool
  | [] => none
  | kp :: rest => if kp.1 = k then some kp.2 else findEntries k rest

/-- Replace the first entry with the given key, or append a new one. -/
def insertEntries (k : Key) (p : Pool) : List (Key × Pool) → List (Key × Pool)
  | [] => [(k, p)]
  | kp :: rest => if kp.1 = k then (k, p) :: rest else kp :: insertEntries k p rest

/-- Modelled from the spec: `Trie.Find(key)` — exact-path lookup (§4.4). -/
def Trie.find (t : Trie) (k : Key) : Option Pool :=
  findEntries k t.entries

/-- Modelled from the spec: `Trie.Insert(key, pool)` — attaches the pool at
the key, overwriting any prior pool reference there (§4.4). -/
def Trie.insert (t : Trie) (k : Key) (p : Pool) : Trie :=
  ⟨insertEntries k p t.entries⟩

/-- Drop every entry carrying the given key. -/
def deleteEntries (k : Key) (l : List (Key × Pool)) : List (Key × Pool) :=
  l.filter (fun kp => kp.1 ≠ k)

/-- Modelled from the spec: `Trie.Delete(key)` — removes the pool at the
key and prunes the now-useless nodes (§4.4). -/
def Trie.delete (t : Trie) (k : Key) : Trie :=
  ⟨deleteEntries k t.entries⟩

/-- Modelled from the spec: `Trie.MatchUri(key)` — exact structural match,
no generalization (§4.4); on the observable mapping it coincides with
`Find`. -/
def Trie.matchUri (t : Trie) (k : Key) : Option Pool :=
  t.find k

/-- Pruning status of the registry (registry.go, `PruneStatus`). -/
inductive PruneStatus where
  | CONNECTED
  | DISCONNECTED
deriving DecidableEq, Repr

/-- The route registry state (registry.go, `RouteRegistry`).  The mutex
and the ticker handle are concurrency machinery and are not modelled; the
suspend predicate's value at tick time is carried as a boolean field. -/
structure RouteRegistry where
  byUri : Trie
  suspendPruning : Bool
  pruningStatus : PruneStatus
  pruneStaleDropletsInterval : Nat
  dropletStaleThreshold : Nat
  timeOfLastUpdate : Nat
deriving DecidableEq, Repr

/-- `NewRouteRegistry` (registry.go): empty trie, never-suspend predicate,
zero values elsewhere (Go zero value of `PruneStatus` is `CONNECTED`). -/
def NewRouteRegistry : RouteRegistry :=
  { byUri := NewTrie
    suspendPruning := false
    pruningStatus := PruneStatus.CONNECTED
    pruneStaleDropletsInterval := 0
    dropletStaleThreshold := 0
    timeOfLastUpdate := 0 }

/-- Strip everything from the first question mark on (`strings.Index` plus
a slice in the Go sources). -/
def stripQuery (s : String) : String :=
  (s.toList.takeWhile (fun c => c ≠ '?')).asString

/-- Split a character list on a separator; the analogue of
`strings.Split`, kept structural so that it evaluates inside proofs. -/
def splitSegs (sep : Char) : List Char → List (List Char)
  | [] => [[]]
  | c :: rest =>
    match splitSegs sep rest with
    | [] => [[c]]
    | s :: ss => if c = sep then [] :: s :: ss else (c :: s) :: ss

/-- Modelled from the spec: `route.Uri.RouteKey()` normalizes a raw URI
into its canonical trie key — the query string is stripped and the result
is decomposed into the trie's URI segments, split on a dot (§3, §4.1).
Case folding is left as the identity (§9 leaves the normalization rule
open as long as it is applied symmetrically, which it is here). -/
def RouteKey (uri : String) : Key :=
  (splitSegs '.' (stripQuery uri).toList).map List.asString

/-- Modelled from the spec: `route.Uri.NextWildcard()` replaces the
left-most host segment with the wildcard marker, or signals exhaustion
when the key is already the top-level wildcard or a single-segment host
(§4.1); the chain of keys it produces is strictly decreasing in
specificity and terminates. -/
def NextWildcard : Key → Option Key
  | [] => none
  | [_] => none
  | p :: q :: rest =>
    if p = "*" then
      match rest with
      | [] => none
      | r :: rest2 => some ("*" :: r :: rest2)
    else
      some ("*" :: q :: rest)

/-- Termination measure for the wildcard generalization chain: segment
count, plus one while the key is not yet wildcard-headed. -/
def wMeasure (segs : Key) : Nat :=
  segs.length + (if segs.head? = some "*" then 0 else 1)

theorem nextWildcard_wMeasure {segs segs2 : Key}
    (h : NextWildcard segs = some segs2) : wMeasure segs2 < wMeasure segs := by
  match segs with
  | [] => simp [NextWildcard] at h
  | [_] => simp [NextWildcard] at h
  | p :: q :: rest =>
    by_cases hp : p = "*"
    · subst hp
      match rest with
      | [] => simp [NextWildcard] at h
      | r :: rest2 =>
        simp [NextWildcard] at h
        subst h
        simp [wMeasure]
    · simp [NextWildcard, hp] at h
      subst h
      simp [wMeasure, hp]

/-- The `Lookup` retry loop (registry.go): try an exact `MatchUri`, and on
a miss generalize the key through `NextWildcard` until a pool is found or
the generalization is exhausted. -/
def lookupKey (t : Trie) (segs : Key) : Option Pool :=
  match t.matchUri segs with
  | some pool => some pool
  | none =>
    match h : NextWildcard segs with
    | none => none
    | some segs2 => lookupKey t segs2
termination_by wMeasure segs
decreasing_by exact nextWildcard_wMeasure h

/-- `RouteRegistry.Lookup` (registry.go): normalize to the route key and
run the wildcard retry loop. -/
def Lookup (r : RouteRegistry) (uri : String) : Option Pool :=
  lookupKey r.byUri (RouteKey uri)

/-- `parseContextPath` (registry.go): trim one leading slash, split the
remainder at its first slash (`strings.SplitN(..., "/", 2)`), start the
context path from "/" followed by the second piece when there is one, and
cut the result at the first question mark. -/
def parseContextPath (uri : String) : String :=
  let trimmed :=
    match uri.toList with
    | '/' :: rest => rest
    | cs => cs
  let tail :=
    match trimmed.dropWhile (fun c => c ≠ '/') with
    | [] => []
    | _ :: after => after
  (('/' :: tail).takeWhile (fun c => c ≠ '?')).asString

/-- `RouteRegistry.Register` (registry.go): normalize the URI, find the
pool at that key or create one (threshold a quarter of the global one,
context path parsed from the original URI), put the endpoint into it, and
refresh the time of last update. -/
def Register (r : RouteRegistry) (now : Nat) (uri : String) (e : Endpoint) :
    RouteRegistry :=
  let routekey := RouteKey uri
  let pool :=
    match r.byUri.find routekey with
    | some p => p
    | none => NewPool (r.dropletStaleThreshold / 4) (parseContextPath uri)
  { r with
    byUri := r.byUri.insert routekey (pool.put now e)
    timeOfLastUpdate := now }

/-- `RouteRegistry.Unregister` (registry.go): normalize the URI; if a pool
exists at that key, remove the endpoint and delete the key when the pool
has become empty; otherwise do nothing. -/
def Unregister (r : RouteRegistry) (uri : String) (e : Endpoint) :
    RouteRegistry :=
  let key := RouteKey uri
  match r.byUri.find key with
  | none => r
  | some pool =>
    let pool2 := pool.remove e
    if pool2.isEmpty then { r with byUri := r.byUri.delete key }
    else { r with byUri := r.byUri.insert key pool2 }

/-- `RouteRegistry.LookupWithInstance` (registry.go): normalize, run the
base `Lookup`, then iterate the returned pool with `Each`, replacing the
surgical pool by a fresh single-element pool at every endpoint whose
application id and private instance index both match.  The Go code calls
`p.Each(...)` on the raw `Lookup` result with no nil check; when the base
lookup misses, that is a method call on a nil `*route.Pool`, which
dereferences nil (the spec's `Each`, §4.3, iterates the pool's endpoints
under the pool's lock).  That failure is rendered as `Except.error`; the
`Ok none` outcome is the nil surgical pool, i.e. not-found. -/
def LookupWithInstance (r : RouteRegistry) (now : Nat) (uri appId appIndex : String) :
    Except String (Option Pool) :=
  match Lookup r uri with
  | none => Except.error "invalid memory address or nil pointer dereference"
  | some p =>
    Except.ok (p.endpoints.foldl
      (fun acc e =>
        if e.applicationId = appId ∧ e.privateInstanceIndex = appIndex then
          some ((NewPool 0 "").put now e)
        else acc)
      none)

/-- `RouteRegistry.freshenRoutes` (registry.go): bulk-mark every pool's
endpoints as updated now (`EachNodeWithPool` + `MarkUpdated`). -/
def freshenRoutes (r : RouteRegistry) (now : Nat) : RouteRegistry :=
  { r with byUri := ⟨r.byUri.entries.map (fun kp => (kp.1, kp.2.markUpdated now))⟩ }

/-- The entry-level body of the eviction pass: prune each pool's stale
endpoints and drop the entry when the pruned pool is empty. -/
def evictEntries (now defaultThreshold : Nat) (l : List (Key × Pool)) :
    List (Key × Pool) :=
  l.filterMap (fun kp =>
    let pool2 := (kp.2.pruneEndpoints now defaultThreshold).1
    if pool2.isEmpty then none else some (kp.1, pool2))

/-- The eviction pass of `pruneStaleDroplets` (registry.go): visit every
pool-bearing node, prune its stale endpoints, and snip the node when its
pool has become empty. -/
def evictStale (t : Trie) (now defaultThreshold : Nat) : Trie :=
  ⟨evictEntries now defaultThreshold t.entries⟩

/-- `RouteRegistry.pruneStaleDroplets` (registry.go): when the suspend
predicate holds, record `DISCONNECTED` and return; otherwise freshen all
routes first if the previous status was `DISCONNECTED`, record
`CONNECTED`, and run the eviction pass. -/
def pruneStaleDroplets (r : RouteRegistry) (now : Nat) : RouteRegistry :=
  if r.suspendPruning then
    { r with pruningStatus := PruneStatus.DISCONNECTED }
  else
    let r1 := if r.pruningStatus = PruneStatus.DISCONNECTED then freshenRoutes r now else r
    let r2 := { r1 with pruningStatus := PruneStatus.CONNECTED }
    { r2 with byUri := evictStale r2.byUri now r2.dropletStaleThreshold }

/-- `mbus.RegistryMessage` (subscriber.go): the decoded inbound
registration/unregistration event. -/
structure RegistryMessage where
  host : String
  port : Nat
  uris : List String
  tags : List (String × String)
  app : String
  staleThresholdInSeconds : Nat
  routeServiceUrl : String
  privateInstanceId : String
  privateInstanceIndex : String
deriving DecidableEq, Repr

/-- Go's `strings.HasPrefix`, over the characters of the strings. -/
def hasPfx (s pre : String) : Bool :=
  pre.toList.isPrefixOf s.toList

/-- `RegistryMessage.ValidateMessage` (subscriber.go): the route-service
URL must be empty or have the literal prefix "https". -/
def RegistryMessage.validateMessage (rm : RegistryMessage) : Bool :=
  rm.routeServiceUrl == "" || hasPfx rm.routeServiceUrl "https"

/-- `RegistryMessage.makeEndpoint` (subscriber.go). -/
def RegistryMessage.makeEndpoint (rm : RegistryMessage) : Endpoint :=
  NewEndpoint rm.app rm.host rm.port rm.privateInstanceId rm.privateInstanceIndex
    rm.tags rm.staleThresholdInSeconds rm.routeServiceUrl

/-- `createRegistryMessage` (subscriber.go): decode, then validate.  The
JSON byte decoding is not modelled; the parameter stands for
`json.Unmarshal`'s outcome (`none` is a decode failure). -/
def createRegistryMessage (decoded : Option RegistryMessage) : Option RegistryMessage :=
  match decoded with
  | none => none
  | some msg => if msg.validateMessage then some msg else none

/-- `Subscriber.registerRoute` (subscriber.go): on a successfully created
message, register the message's endpoint under every listed URI; on a
decode or validation failure, return with the registry untouched. -/
def registerRoute (r : RouteRegistry) (now : Nat) (decoded : Option RegistryMessage) :
    RouteRegistry :=
  match createRegistryMessage decoded with
  | none => r
  | some msg => msg.uris.foldl (fun acc uri => Register acc now uri msg.makeEndpoint) r

/-- `Subscriber.unregisterRoute` (subscriber.go): the unregistration
counterpart of `registerRoute`. -/
def unregisterRoute (r : RouteRegistry) (now : Nat) (decoded : Option RegistryMessage) :
    RouteRegistry :=
  match createRegistryMessage decoded with
  | none => r
  | some msg => msg.uris.foldl (fun acc uri => Unregister acc uri msg.makeEndpoint) r

/-- The pending-message limit passed to `SetPendingLimits`
(subscriber.go, `subscribeRoutes`). -/
def maxPendingMessages : Nat := 131072

/-- The pending-byte limit passed to `SetPendingLimits` (subscriber.go,
`subscribeRoutes`): `131072*1024` in the source. -/
def maxPendingBytes : Nat := 131072 * 1024

/-! ### Lemmas about the entry-list operations -/

theorem findEntries_insertEntries_self (k : Key) (p : Pool) (l : List (Key × Pool)) :
    findEntries k (insertEntries k p l) = some p := by
  induction l with
  | nil => simp [insertEntries, findEntries]
  | cons kp rest ih =>
    by_cases hk : kp.1 = k
    · simp [insertEntries, findEntries, hk]
    · simp [insertEntries, findEntries, hk, ih]

theorem findEntries_insertEntries_ne (k k2 : Key) (p : Pool) (l : List (Key × Pool))
    (h : k2 ≠ k) : findEntries k2 (insertEntries k p l) = findEntries k2 l := by
  have h2 : ¬(k = k2) := fun hh => h hh.symm
  induction l with
  | nil => simp [insertEntries, findEntries, h2]
  | cons kp rest ih =>
    by_cases hk : kp.1 = k
    · simp [insertEntries, findEntries, hk, h2]
    · simp [insertEntries, findEntries, hk, ih]

theorem insertEntries_self (k : Key) (p : Pool) (l : List (Key × Pool))
    (h : findEntries k l = some p) : insertEntries k p l = l := by
  induction l with
  | nil => simp [findEntries] at h
  | cons kp rest ih =>
    obtain ⟨k1, p1⟩ := kp
    by_cases hk : k1 = k
    · subst hk
      simp [findEntries] at h
      simp [insertEntries, h]
    · simp [findEntries, hk] at h
      simp [insertEntries, hk, ih h]

theorem findEntries_filter_self (k : Key) (l : List (Key × Pool)) :
    findEntries k (l.filter (fun kp => kp.1 ≠ k)) = none := by
  induction l with
  | nil => simp [findEntries]
  | cons kp rest ih =>
    simp only [decide_not] at ih ⊢
    by_cases hk : kp.1 = k
    · simp [List.filter_cons, hk, ih]
    · simp [List.filter_cons, hk, findEntries, ih]

theorem findEntries_filter_ne (k k2 : Key) (l : List (Key × Pool)) (h : k2 ≠ k) :
    findEntries k2 (l.filter (fun kp => kp.1 ≠ k)) = findEntries k2 l := by
  induction l with
  | nil => simp
  | cons kp rest ih =>
    simp only [decide_not] at ih ⊢
    by_cases hk : kp.1 = k
    · have hne : ¬(kp.1 = k2) := fun hh => h (hh ▸ hk)
      have hk2 : ¬(k = k2) := fun hh => h hh.symm
      simp [List.filter_cons, hk, findEntries, hne, hk2, ih]
    · simp [List.filter_cons, hk, findEntries, ih]

theorem findEntries_deleteEntries_self (k : Key) (l : List (Key × Pool)) :
    findEntries k (deleteEntries k l) = none :=
  findEntries_filter_self k l

theorem findEntries_deleteEntries_ne (k k2 : Key) (l : List (Key × Pool))
    (h : k2 ≠ k) : findEntries k2 (deleteEntries k l) = findEntries k2 l :=
  findEntries_filter_ne k k2 l h

theorem mem_insertEntries {kp : Key × Pool} {k : Key} {p : Pool}
    {l : List (Key × Pool)} (h : kp ∈ insertEntries k p l) : kp = (k, p) ∨ kp ∈ l := by
  induction l with
  | nil => simpa [insertEntries] using h
  | cons kp2 rest ih =>
    by_cases hk : kp2.1 = k
    · simp [insertEntries, hk] at h
      rcases h with h | h
      · exact Or.inl h
      · exact Or.inr (List.mem_cons_of_mem _ h)
    · simp [insertEntries, hk] at h
      rcases h with h | h
      · exact Or.inr (by simp [h])
      · rcases ih h with h2 | h2
        · exact Or.inl h2
        · exact Or.inr (List.mem_cons_of_mem _ h2)

theorem lookupKey_hit {t : Trie} {segs : Key} {pool : Pool}
    (h : t.matchUri segs = some pool) : lookupKey t segs = some pool := by
  rw [lookupKey, h]

/-! ### Concrete inputs used by witnesses and counterexamples -/

/-- A concrete endpoint used by the closed witness statements. -/
def eEx : Endpoint :=
  { applicationId := "app1"
    host := "10.0.0.1"
    port := 6060
    privateInstanceId := "id1"
    privateInstanceIndex := "0"
    tags := []
    staleThresholdOverride := none
    routeServiceUrl := ""
    updatedAt := 0 }

/-- A concrete one-endpoint pool used by the closed witness statements. -/
def poolEx : Pool :=
  { endpoints := [eEx], threshold := 0, contextPath := "/" }

/-- A registry holding `poolEx` under `foo.example.com`. -/
def rOne : RouteRegistry :=
  { NewRouteRegistry with byUri := ⟨[(RouteKey "foo.example.com", poolEx)]⟩ }

/-! ### Claim theorems -/

/-- C9: the subscription backpressure limits passed to `SetPendingLimits`
are exactly 131072 buffered messages and `131072*1024 = 134217728`
buffered bytes. -/
theorem pending_limits_value :
    maxPendingMessages = 131072 ∧ maxPendingBytes = 134217728 := by
  constructor <;> norm_num [maxPendingMessages, maxPendingBytes]

theorem parseContextPath_shape (uri : String) :
    ∃ tl : List Char,
      parseContextPath uri = (('/' :: tl).takeWhile (fun c => c ≠ '?')).asString :=
  ⟨_, rfl⟩

/-- C10: `parseContextPath` always returns a string that begins with "/"
and contains no "?"; and the pool freshly created by `Register` stores
that context path, hence never a query string. -/
theorem parseContextPath_slash_no_query (uri : String) :
    (parseContextPath uri).toList.head? = some '/' ∧
    '?' ∉ (parseContextPath uri).toList ∧
    ∀ (r : RouteRegistry) (now : Nat) (e : Endpoint),
      r.byUri.find (RouteKey uri) = none →
      ∃ p : Pool, (Register r now uri e).byUri.find (RouteKey uri) = some p ∧
        p.contextPath = parseContextPath uri := by
  obtain ⟨tl, htl⟩ := parseContextPath_shape uri
  refine ⟨?_, ?_, ?_⟩
  · rw [htl]
    simp only [List.takeWhile_cons]
    rfl
  · rw [htl]
    intro hmem
    rw [List.toList_asString] at hmem
    have h2 := List.mem_takeWhile_imp hmem
    simp at h2
  · intro r now e hf
    refine ⟨(NewPool (r.dropletStaleThreshold / 4) (parseContextPath uri)).put now e, ?_, rfl⟩
    simp only [Register, hf]
    simp only [Trie.find, Trie.insert]
    exact findEntries_insertEntries_self _ _ _

/-- Closed witness for C10: on the empty registry, registering
`foo.example.com` creates a pool whose context path is the parsed one. -/
theorem parseContextPath_slash_no_query_witness :
    NewRouteRegistry.byUri.find (RouteKey "foo.example.com") = none ∧
    ∃ p : Pool,
      (Register NewRouteRegistry 5 "foo.example.com" eEx).byUri.find
          (RouteKey "foo.example.com") = some p ∧
        p.contextPath = parseContextPath "foo.example.com" :=
  ⟨rfl, (parseContextPath_slash_no_query "foo.example.com").2.2 NewRouteRegistry 5 eEx rfl⟩

/-- C1: registering an endpoint and then looking the same URI up returns a
pool holding an endpoint with the registered endpoint's canonical
address. -/
theorem register_lookup_contains (r : RouteRegistry) (now : Nat) (uri : String)
    (e : Endpoint) :
    ∃ p : Pool, Lookup (Register r now uri e) uri = some p ∧
      ∃ e2 ∈ p.endpoints, e2.canonicalAddr = e.canonicalAddr := by
  cases hf : r.byUri.find (RouteKey uri) with
  | some p0 =>
    refine ⟨p0.put now e, ?_, ⟨{ e with updatedAt := now }, ?_, rfl⟩⟩
    · refine lookupKey_hit ?_
      show ((Register r now uri e).byUri).matchUri (RouteKey uri) = _
      simp only [Register, hf]
      simp only [Trie.matchUri, Trie.find, Trie.insert]
      exact findEntries_insertEntries_self _ _ _
    · simp [Pool.put]
  | none =>
    refine ⟨(NewPool (r.dropletStaleThreshold / 4) (parseContextPath uri)).put now e,
      ?_, ⟨{ e with updatedAt := now }, ?_, rfl⟩⟩
    · refine lookupKey_hit ?_
      show ((Register r now uri e).byUri).matchUri (RouteKey uri) = _
      simp only [Register, hf]
      simp only [Trie.matchUri, Trie.find, Trie.insert]
      exact findEntries_insertEntries_self _ _ _
    · simp [Pool.put]

/-- The generalization chain walked by `Lookup`: the normalized key
followed by its successive `NextWildcard` generalizations, up to
exhaustion. -/
def wildcardChain (segs : Key) : List Key :=
  segs ::
    (match h : NextWildcard segs with
     | none => []
     | some segs2 => wildcardChain segs2)
termination_by wMeasure segs
decreasing_by exact nextWildcard_wMeasure h

theorem lookupKey_eq_chain (t : Trie) (segs : Key) :
    lookupKey t segs = (wildcardChain segs).findSome? (fun k => t.matchUri k) := by
  generalize hn : wMeasure segs = n
  induction n using Nat.strong_induction_on generalizing segs with
  | _ n ih =>
    subst hn
    rw [lookupKey, wildcardChain]
    rw [List.findSome?_cons]
    cases hm : t.matchUri segs with
    | some p => simp [hm]
    | none =>
      simp only [hm]
      cases hw : NextWildcard segs with
      | none => simp [hw]
      | some segs2 =>
        simp only [hw]
        exact ih (wMeasure segs2) (nextWildcard_wMeasure hw) segs2 rfl

/-- C3: `Lookup` normalizes the URI through `RouteKey` and then scans the
generalization chain — the key followed by its iterated `NextWildcard`
generalizations until `NextWildcard` signals exhaustion — returning the
first `MatchUri` hit; it returns not-found exactly when every key of the
chain misses. -/
theorem lookup_scans_wildcard_chain (r : RouteRegistry) (uri : String) :
    Lookup r uri =
      (wildcardChain (RouteKey uri)).findSome? (fun k => r.byUri.matchUri k) ∧
    (Lookup r uri = none ↔
      ∀ k ∈ wildcardChain (RouteKey uri), r.byUri.matchUri k = none) ∧
    (wildcardChain (RouteKey uri)).head? = some (RouteKey uri) := by
  refine ⟨lookupKey_eq_chain r.byUri (RouteKey uri), ?_, ?_⟩
  · rw [Lookup, lookupKey_eq_chain]
    simp [List.findSome?_eq_none_iff]
  · rw [wildcardChain]
    rfl

/-- C4: `Unregister` normalizes the URI; with no pool at the key it is a
no-op; with a pool it removes the endpoint by canonical address, deletes
the key exactly when the pool becomes empty, keeps the shrunken pool
otherwise, leaves other keys untouched, and is a no-op when the endpoint
is not in the (non-empty) pool. -/
theorem unregister_cases (r : RouteRegistry) (uri : String) (e : Endpoint) :
    (r.byUri.find (RouteKey uri) = none → Unregister r uri e = r) ∧
    ∀ pool, r.byUri.find (RouteKey uri) = some pool →
      ((Unregister r uri e).byUri.find (RouteKey uri) = none ↔
        (pool.remove e).isEmpty = true) ∧
      ((pool.remove e).isEmpty = false →
        (Unregister r uri e).byUri.find (RouteKey uri) = some (pool.remove e)) ∧
      (∀ x ∈ (pool.remove e).endpoints, x.canonicalAddr ≠ e.canonicalAddr) ∧
      (∀ k2, k2 ≠ RouteKey uri →
        (Unregister r uri e).byUri.find k2 = r.byUri.find k2) ∧
      ((∀ x ∈ pool.endpoints, x.canonicalAddr ≠ e.canonicalAddr) →
        pool.isEmpty = false → Unregister r uri e = r) := by
  constructor
  · intro hf
    simp [Unregister, hf]
  · intro pool hf
    have hu : Unregister r uri e =
        (if (pool.remove e).isEmpty then { r with byUri := r.byUri.delete (RouteKey uri) }
         else { r with byUri := r.byUri.insert (RouteKey uri) (pool.remove e) }) := by
      simp [Unregister, hf]
    refine ⟨?_, ?_, ?_, ?_, ?_⟩
    · cases hEmpty : (pool.remove e).isEmpty with
      | true =>
        simp [hu, hEmpty, Trie.find, Trie.delete, findEntries_deleteEntries_self]
      | false =>
        simp [hu, hEmpty, Trie.find, Trie.insert, findEntries_insertEntries_self]
    · intro hEmpty
      simp [hu, hEmpty, Trie.find, Trie.insert, findEntries_insertEntries_self]
    · intro x hx
      simp [Pool.remove, List.mem_filter] at hx
      exact hx.2
    · intro k2 hk2
      cases hEmpty : (pool.remove e).isEmpty with
      | true =>
        simp [hu, hEmpty, Trie.find, Trie.delete,
          findEntries_deleteEntries_ne _ _ _ hk2]
      | false =>
        simp [hu, hEmpty, Trie.find, Trie.insert,
          findEntries_insertEntries_ne _ _ _ _ hk2]
    · intro hnone hne
      have hrm : pool.remove e = pool := by
        have hfil :
            pool.endpoints.filter (fun x => x.canonicalAddr ≠ e.canonicalAddr)
              = pool.endpoints := by
          rw [List.filter_eq_self]
          intro a ha
          simpa using hnone a ha
        rw [Pool.remove, hfil]
      rw [hu, hrm]
      rw [if_neg (by simp [hne])]
      have hins : r.byUri.insert (RouteKey uri) pool = r.byUri := by
        rw [Trie.insert, insertEntries_self (RouteKey uri) pool r.byUri.entries hf]
      rw [hins]

/-- Closed witness for C4: on a registry holding one endpoint under
`foo.example.com`, unregistering it empties the pool and deletes the key,
and other keys are untouched. -/
theorem unregister_cases_witness :
    ((Unregister rOne "foo.example.com" eEx).byUri.find (RouteKey "foo.example.com")
        = none ↔ (poolEx.remove eEx).isEmpty = true) ∧
    ∀ k2, k2 ≠ RouteKey "foo.example.com" →
      (Unregister rOne "foo.example.com" eEx).byUri.find k2 = rOne.byUri.find k2 := by
  have h := (unregister_cases rOne "foo.example.com" eEx).2 poolEx (by
    simp [rOne, Trie.find, findEntries])
  exact ⟨h.1, h.2.2.2.1⟩

theorem lookupKey_empty_trie (segs : Key) : lookupKey ⟨[]⟩ segs = none := by
  rw [lookupKey_eq_chain]
  rw [List.findSome?_eq_none_iff]
  intro k _
  rfl

/-- C2 (counter-evidence): on a base-lookup miss, `LookupWithInstance`
does not return not-found — the Go code calls `Each` on the nil pool
returned by `Lookup`, a nil-pointer dereference, rendered here as the
error outcome.  Evaluated at a concrete failing input: the empty registry
and the URI `foo.example.com`. -/
theorem lookupWithInstance_nil_each :
    LookupWithInstance NewRouteRegistry 0 "foo.example.com" "app1" "0" =
      Except.error "invalid memory address or nil pointer dereference" := by
  have h : Lookup NewRouteRegistry "foo.example.com" = none :=
    lookupKey_empty_trie (RouteKey "foo.example.com")
  simp [LookupWithInstance, h]

/-- Every pool reachable in the trie is non-empty — the reachable-state
invariant tying pool emptiness to absence from the trie. -/
def PoolsNonempty (t : Trie) : Prop :=
  ∀ kp ∈ t.entries, kp.2.isEmpty = false

theorem pools_nonempty_evictStale (t : Trie) (now th : Nat) :
    PoolsNonempty (evictStale t now th) := by
  intro kp hkp
  simp only [evictStale, evictEntries, List.mem_filterMap] at hkp
  obtain ⟨a, _, hfa⟩ := hkp
  cases hE : ((a.2.pruneEndpoints now th).1).isEmpty with
  | true => simp [hE] at hfa
  | false =>
    simp [hE] at hfa
    rw [← hfa]
    exact hE

/-- The trie's keys are pairwise distinct — the other reachable-state
invariant of the key→pool map. -/
def KeysNodup (t : Trie) : Prop :=
  (t.entries.map Prod.fst).Nodup

/-- The pool the eviction pass of one tick produces from a pool found in
the table: refreshed first when the previous status was DISCONNECTED,
then pruned against the global threshold. -/
def sweepPool (r : RouteRegistry) (now : Nat) (p : Pool) : Pool :=
  ((if r.pruningStatus = PruneStatus.DISCONNECTED then p.markUpdated now else p).pruneEndpoints
    now r.dropletStaleThreshold).1

theorem findEntries_eq_none (k : Key) (l : List (Key × Pool))
    (h : ∀ kp ∈ l, kp.1 ≠ k) : findEntries k l = none := by
  induction l with
  | nil => rfl
  | cons kp rest ih =>
    rw [findEntries, if_neg (h kp (List.mem_cons_self kp rest))]
    exact ih (fun kp2 h2 => h kp2 (List.mem_cons_of_mem _ h2))

theorem keys_insertEntries_nodup (k : Key) (p : Pool) (l : List (Key × Pool))
    (h : (l.map Prod.fst).Nodup) : ((insertEntries k p l).map Prod.fst).Nodup := by
  induction l with
  | nil => simp [insertEntries]
  | cons kp rest ih =>
    simp only [List.map_cons, List.nodup_cons] at h
    by_cases hk : kp.1 = k
    · simp only [insertEntries, hk, if_pos, List.map_cons, List.nodup_cons]
      exact ⟨hk ▸ h.1, h.2⟩
    · simp only [insertEntries, hk, if_neg, ite_false, List.map_cons,
        List.nodup_cons]
      refine ⟨?_, ih h.2⟩
      intro hmem
      simp only [List.mem_map] at hmem
      obtain ⟨kp2, hkp2, hfst⟩ := hmem
      rcases mem_insertEntries hkp2 with h2 | h2
      · rw [h2] at hfst
        exact hk hfst.symm
      · exact h.1 (List.mem_map.mpr ⟨kp2, h2, hfst⟩)

theorem keys_deleteEntries_nodup (k : Key) (l : List (Key × Pool))
    (h : (l.map Prod.fst).Nodup) : ((deleteEntries k l).map Prod.fst).Nodup :=
  h.sublist ((List.filter_sublist l).map Prod.fst)

theorem keys_evictEntries_sublist (now th : Nat) (l : List (Key × Pool)) :
    List.Sublist ((evictEntries now th l).map Prod.fst) (l.map Prod.fst) := by
  induction l with
  | nil => simp [evictEntries]
  | cons kp rest ih =>
    simp only [evictEntries, List.filterMap_cons] at ih ⊢
    cases hE : ((kp.2.pruneEndpoints now th).1).isEmpty with
    | true =>
      simp only [hE, if_pos, List.map_cons]
      exact ih.cons kp.1
    | false =>
      simp only [hE, Bool.false_eq_true, if_false, List.map_cons]
      exact ih.cons₂ kp.1

theorem keys_freshened (l : List (Key × Pool)) (now : Nat) :
    (l.map (fun kp => (kp.1, kp.2.markUpdated now))).map Prod.fst = l.map Prod.fst := by
  induction l with
  | nil => rfl
  | cons kp rest ih => simp [ih]

theorem findEntries_freshened (k : Key) (l : List (Key × Pool)) (now : Nat) :
    findEntries k (l.map (fun kp => (kp.1, kp.2.markUpdated now))) =
      (findEntries k l).map (fun p => p.markUpdated now) := by
  induction l with
  | nil => rfl
  | cons kp rest ih =>
    by_cases hk : kp.1 = k
    · simp [findEntries, hk]
    · simp [findEntries, hk, ih]

theorem findEntries_evictEntries (now th : Nat) (k : Key) :
    ∀ (l : List (Key × Pool)) (p : Pool), (l.map Prod.fst).Nodup →
      findEntries k l = some p →
      (((p.pruneEndpoints now th).1.isEmpty = false →
        findEntries k (evictEntries now th l) = some (p.pruneEndpoints now th).1) ∧
       ((p.pruneEndpoints now th).1.isEmpty = true →
        findEntries k (evictEntries now th l) = none)) := by
  intro l
  induction l with
  | nil =>
    intro p _ hf
    simp [findEntries] at hf
  | cons kp rest ih =>
    intro p hnd hf
    simp only [List.map_cons, List.nodup_cons] at hnd
    by_cases hk : kp.1 = k
    · rw [findEntries, if_pos hk] at hf
      injection hf with hf
      subst hf
      constructor
      · intro hne
        simp [evictEntries, List.filterMap_cons, hne, findEntries, hk]
      · intro hemp
        simp only [evictEntries, List.filterMap_cons, hemp, if_pos]
        apply findEntries_eq_none
        intro kp2 hkp2
        simp only [List.mem_filterMap] at hkp2
        obtain ⟨a, ha, hfa⟩ := hkp2
        have hfst : kp2.1 = a.1 := by
          cases hE : ((a.2.pruneEndpoints now th).1).isEmpty with
          | true => simp [hE] at hfa
          | false =>
            simp [hE] at hfa
            rw [← hfa]
        rw [hfst]
        intro hak
        exact hnd.1 (List.mem_map.mpr ⟨a, ha, hak.trans hk.symm⟩)
    · rw [findEntries, if_neg hk] at hf
      have ih2 := ih p hnd.2 hf
      simp only [evictEntries, List.filterMap_cons] at ih2 ⊢
      cases hE : ((kp.2.pruneEndpoints now th).1).isEmpty with
      | true =>
        simp only [hE, if_pos]
        exact ih2
      | false =>
        simp only [hE, Bool.false_eq_true, if_false]
        constructor
        · intro hne
          rw [findEntries, if_neg hk]
          exact ih2.1 hne
        · intro hemp
          rw [findEntries, if_neg hk]
          exact ih2.2 hemp

theorem find_evictStale (t : Trie) (now th : Nat) (hnd : KeysNodup t)
    (k : Key) (p : Pool) (hf : t.find k = some p) :
    (((p.pruneEndpoints now th).1.isEmpty = false →
       (evictStale t now th).find k = some (p.pruneEndpoints now th).1) ∧
     ((p.pruneEndpoints now th).1.isEmpty = true →
       (evictStale t now th).find k = none)) :=
  findEntries_evictEntries now th k t.entries p hnd hf

/-- C5: after every registry operation a pool is absent from the trie iff
it is empty.  Both reachable-state invariants — pairwise-distinct keys and
no empty pool reachable — are preserved by `Register`, `Unregister` and
the pruning sweep; `Register` removes no pool (untouched at other keys, a
pool still present at the registered key); `Unregister` deletes a looked-up
pool's key exactly when the pool transitions to empty; a non-suspended
sweep removes the pool at a key exactly when its (possibly refreshed)
pruned pool is empty, and otherwise keeps exactly that pruned pool; a
suspended sweep removes nothing. -/
theorem pool_absent_iff_empty (r : RouteRegistry) (now : Nat) (uri : String)
    (e : Endpoint) (hnd : KeysNodup r.byUri) (h : PoolsNonempty r.byUri) :
    (PoolsNonempty (Register r now uri e).byUri ∧
     PoolsNonempty (Unregister r uri e).byUri ∧
     PoolsNonempty (pruneStaleDroplets r now).byUri) ∧
    (KeysNodup (Register r now uri e).byUri ∧
     KeysNodup (Unregister r uri e).byUri ∧
     KeysNodup (pruneStaleDroplets r now).byUri) ∧
    ((∀ k, k ≠ RouteKey uri →
        (Register r now uri e).byUri.find k = r.byUri.find k) ∧
     (∃ p2, (Register r now uri e).byUri.find (RouteKey uri) = some p2)) ∧
    (∀ k p, r.byUri.find k = some p →
      ((Unregister r uri e).byUri.find k = none ↔
        k = RouteKey uri ∧ (p.remove e).isEmpty = true)) ∧
    (r.suspendPruning = false →
      ∀ k p, r.byUri.find k = some p →
        ((sweepPool r now p).isEmpty = false →
          (pruneStaleDroplets r now).byUri.find k = some (sweepPool r now p)) ∧
        ((sweepPool r now p).isEmpty = true →
          (pruneStaleDroplets r now).byUri.find k = none)) ∧
    (r.suspendPruning = true → (pruneStaleDroplets r now).byUri = r.byUri) := by
  refine ⟨⟨?_, ?_, ?_⟩, ⟨?_, ?_, ?_⟩, ⟨?_, ?_⟩, ?_, ?_, ?_⟩
  · cases hf : r.byUri.find (RouteKey uri) with
    | some p0 =>
      intro kp hkp
      simp only [Register, hf, Trie.insert] at hkp
      rcases mem_insertEntries hkp with hkp2 | hkp2
      · rw [hkp2]
        simp [Pool.put, Pool.isEmpty]
      · exact h kp hkp2
    | none =>
      intro kp hkp
      simp only [Register, hf, Trie.insert] at hkp
      rcases mem_insertEntries hkp with hkp2 | hkp2
      · rw [hkp2]
        simp [Pool.put, Pool.isEmpty]
      · exact h kp hkp2
  · cases hf : r.byUri.find (RouteKey uri) with
    | none =>
      have hEq : Unregister r uri e = r := by simp [Unregister, hf]
      rw [hEq]
      exact h
    | some pool =>
      cases hEmpty : (pool.remove e).isEmpty with
      | true =>
        intro kp hkp
        simp only [Unregister, hf, hEmpty, if_pos, Trie.delete, deleteEntries] at hkp
        exact h kp (List.mem_of_mem_filter hkp)
      | false =>
        intro kp hkp
        simp only [Unregister, hf, hEmpty, Bool.false_eq_true, if_false,
          Trie.insert] at hkp
        rcases mem_insertEntries hkp with hkp2 | hkp2
        · rw [hkp2]
          exact hEmpty
        · exact h kp hkp2
  · cases hs : r.suspendPruning with
    | true =>
      intro kp hkp
      simp only [pruneStaleDroplets, hs, if_pos] at hkp
      exact h kp hkp
    | false =>
      intro kp hkp
      simp only [pruneStaleDroplets, hs, Bool.false_eq_true, if_false] at hkp
      exact pools_nonempty_evictStale _ now _ kp hkp
  · cases hf : r.byUri.find (RouteKey uri) with
    | some p0 =>
      simp only [Register, hf, Trie.insert]
      exact keys_insertEntries_nodup _ _ _ hnd
    | none =>
      simp only [Register, hf, Trie.insert]
      exact keys_insertEntries_nodup _ _ _ hnd
  · cases hf : r.byUri.find (RouteKey uri) with
    | none =>
      have hEq : Unregister r uri e = r := by simp [Unregister, hf]
      rw [hEq]
      exact hnd
    | some pool =>
      cases hEmpty : (pool.remove e).isEmpty with
      | true =>
        simp only [Unregister, hf, hEmpty, if_pos, Trie.delete]
        exact keys_deleteEntries_nodup _ _ hnd
      | false =>
        simp only [Unregister, hf, hEmpty, Bool.false_eq_true, if_false,
          Trie.insert]
        exact keys_insertEntries_nodup _ _ _ hnd
  · cases hs : r.suspendPruning with
    | true =>
      simp only [pruneStaleDroplets, hs, if_pos]
      exact hnd
    | false =>
      cases hd : r.pruningStatus with
      | CONNECTED =>
        have hby : (pruneStaleDroplets r now).byUri =
            evictStale r.byUri now r.dropletStaleThreshold := by
          simp [pruneStaleDroplets, hs, hd]
        rw [hby]
        exact hnd.sublist (keys_evictEntries_sublist now r.dropletStaleThreshold _)
      | DISCONNECTED =>
        have hby : (pruneStaleDroplets r now).byUri =
            evictStale ⟨r.byUri.entries.map (fun kp => (kp.1, kp.2.markUpdated now))⟩
              now r.dropletStaleThreshold := by
          simp [pruneStaleDroplets, hs, hd, freshenRoutes]
        rw [hby]
        apply List.Nodup.sublist (keys_evictEntries_sublist now r.dropletStaleThreshold _)
        rw [keys_freshened]
        exact hnd
  · intro k hk
    cases hf : r.byUri.find (RouteKey uri) with
    | some p0 =>
      simp only [Register, hf, Trie.insert, Trie.find]
      exact findEntries_insertEntries_ne _ _ _ _ hk
    | none =>
      simp only [Register, hf, Trie.insert, Trie.find]
      exact findEntries_insertEntries_ne _ _ _ _ hk
  · cases hf : r.byUri.find (RouteKey uri) with
    | some p0 =>
      refine ⟨p0.put now e, ?_⟩
      simp only [Register, hf]
      simp only [Trie.insert, Trie.find]
      exact findEntries_insertEntries_self _ _ _
    | none =>
      refine ⟨(NewPool (r.dropletStaleThreshold / 4) (parseContextPath uri)).put now e, ?_⟩
      simp only [Register, hf]
      simp only [Trie.insert, Trie.find]
      exact findEntries_insertEntries_self _ _ _
  · intro k p hf2
    by_cases hk : k = RouteKey uri
    · subst hk
      cases hEmpty : (p.remove e).isEmpty with
      | true =>
        have hres : (Unregister r uri e).byUri.find (RouteKey uri) = none := by
          simp only [Unregister, hf2, hEmpty, if_pos]
          simp only [Trie.delete, Trie.find]
          exact findEntries_deleteEntries_self _ _
        simp [hres, hEmpty]
      | false =>
        have hres : (Unregister r uri e).byUri.find (RouteKey uri)
            = some (p.remove e) := by
          simp only [Unregister, hf2, hEmpty, Bool.false_eq_true, if_false]
          simp only [Trie.insert, Trie.find]
          exact findEntries_insertEntries_self _ _ _
        simp [hres, hEmpty]
    · have hfr : (Unregister r uri e).byUri.find k = r.byUri.find k := by
        cases hf : r.byUri.find (RouteKey uri) with
        | none => simp [Unregister, hf]
        | some pool =>
          cases hEmpty : (pool.remove e).isEmpty with
          | true =>
            simp only [Unregister, hf, hEmpty, if_pos]
            simp only [Trie.delete, Trie.find]
            exact findEntries_deleteEntries_ne _ _ _ hk
          | false =>
            simp only [Unregister, hf, hEmpty, Bool.false_eq_true, if_false]
            simp only [Trie.insert, Trie.find]
            exact findEntries_insertEntries_ne _ _ _ _ hk
      rw [hfr, hf2]
      simp [hk]
  · intro hs k p hf
    cases hd : r.pruningStatus with
    | CONNECTED =>
      have hby : (pruneStaleDroplets r now).byUri =
          evictStale r.byUri now r.dropletStaleThreshold := by
        simp [pruneStaleDroplets, hs, hd]
      have hw := find_evictStale r.byUri now r.dropletStaleThreshold hnd k p hf
      constructor
      · intro hne
        simp only [sweepPool, hd] at hne ⊢
        rw [hby]
        exact hw.1 (by simpa using hne)
      · intro hemp
        simp only [sweepPool, hd] at hemp
        rw [hby]
        exact hw.2 (by simpa using hemp)
    | DISCONNECTED =>
      have hby : (pruneStaleDroplets r now).byUri =
          evictStale ⟨r.byUri.entries.map (fun kp => (kp.1, kp.2.markUpdated now))⟩
            now r.dropletStaleThreshold := by
        simp [pruneStaleDroplets, hs, hd, freshenRoutes]
      have hfind1 :
          Trie.find ⟨r.byUri.entries.map (fun kp => (kp.1, kp.2.markUpdated now))⟩ k
            = some (p.markUpdated now) := by
        show findEntries k _ = _
        rw [findEntries_freshened]
        rw [show findEntries k r.byUri.entries = some p from hf]
        rfl
      have hnd1 :
          KeysNodup ⟨r.byUri.entries.map (fun kp => (kp.1, kp.2.markUpdated now))⟩ := by
        show (List.map Prod.fst _).Nodup
        rw [keys_freshened]
        exact hnd
      have hw := find_evictStale _ now r.dropletStaleThreshold hnd1 k
        (p.markUpdated now) hfind1
      constructor
      · intro hne
        simp only [sweepPool, hd] at hne ⊢
        rw [hby]
        exact hw.1 (by simpa using hne)
      · intro hemp
        simp only [sweepPool, hd] at hemp
        rw [hby]
        exact hw.2 (by simpa using hemp)
  · intro hs
    simp [pruneStaleDroplets, hs]

/-- Closed witness for C5: on a one-endpoint registry, unregistering the
endpoint deletes the key (the pool transitioned to empty); a sweep at
time 0 keeps the pool (its pruned pool is non-empty); a sweep at time 3
with global threshold 0 evicts the endpoint and removes the key (the
pruned pool is empty). -/
theorem pool_absent_iff_empty_witness :
    (Unregister rOne "foo.example.com" eEx).byUri.find (RouteKey "foo.example.com")
        = none ∧
    (pruneStaleDroplets rOne 0).byUri.find (RouteKey "foo.example.com")
        = some (sweepPool rOne 0 poolEx) ∧
    (pruneStaleDroplets rOne 3).byUri.find (RouteKey "foo.example.com") = none := by
  have hfind : rOne.byUri.find (RouteKey "foo.example.com") = some poolEx := by
    simp [rOne, Trie.find, findEntries]
  have hnd : KeysNodup rOne.byUri := by
    simp [KeysNodup, rOne]
  have hpn : PoolsNonempty rOne.byUri := by
    intro kp hkp
    simp [rOne] at hkp
    rw [hkp]
    rfl
  have h0 := pool_absent_iff_empty rOne 0 "foo.example.com" eEx hnd hpn
  have h3 := pool_absent_iff_empty rOne 3 "foo.example.com" eEx hnd hpn
  refine ⟨?_, ?_, ?_⟩
  · exact (h0.2.2.2.1 _ poolEx hfind).mpr ⟨rfl, by decide⟩
  · exact (h0.2.2.2.2.1 rfl _ poolEx hfind).1 (by decide)
  · exact (h3.2.2.2.2.1 rfl _ poolEx hfind).2 (by decide)

/-- The fresh registry with the suspend predicate returning true and the
pruning status still CONNECTED. -/
def rSusp : RouteRegistry :=
  { NewRouteRegistry with suspendPruning := true }

/-- C6 counterexample: a suspended pruning tick does not leave all
registry fields unchanged — at the concrete state `rSusp` (suspend
predicate true, status CONNECTED) the tick changes the state, because it
records DISCONNECTED. -/
theorem suspended_tick_changes_status : pruneStaleDroplets rSusp 0 ≠ rSusp := by
  decide

/-- C6 (amended): while the suspend predicate returns true, a pruning tick
leaves the trie, every pool and every endpoint timestamp unchanged and
touches no registry field other than the pruning status, which it sets to
DISCONNECTED (so a tick in an already-DISCONNECTED state changes
nothing). -/
theorem suspended_tick_only_sets_disconnected (r : RouteRegistry) (now : Nat)
    (h : r.suspendPruning = true) :
    pruneStaleDroplets r now = { r with pruningStatus := PruneStatus.DISCONNECTED } := by
  simp [pruneStaleDroplets, h]

/-- Closed witness for C6's amended statement, at the concrete suspended
registry and time 0. -/
theorem suspended_tick_only_sets_disconnected_witness :
    pruneStaleDroplets rSusp 0 = { rSusp with pruningStatus := PruneStatus.DISCONNECTED } :=
  suspended_tick_only_sets_disconnected rSusp 0 rfl

theorem markUpdated_isEmpty (p : Pool) (now : Nat) :
    (p.markUpdated now).isEmpty = p.isEmpty := by
  simp only [Pool.markUpdated, Pool.isEmpty]
  cases p.endpoints <;> rfl

theorem pruneEndpoints_markUpdated (p : Pool) (now th : Nat) :
    ((p.markUpdated now).pruneEndpoints now th).1 = p.markUpdated now := by
  have hall : ∀ e2 ∈ (p.markUpdated now).endpoints,
      (!(p.markUpdated now).isStale now th e2) = true := by
    intro e2 he2
    simp only [Pool.markUpdated, List.mem_map] at he2
    obtain ⟨e0, _, he0⟩ := he2
    rw [← he0]
    simp [Pool.isStale, Nat.sub_self]
  simp only [Pool.pruneEndpoints]
  rw [List.filter_eq_self.mpr hall]

theorem filterMap_eq_map_of_forall {α β : Type} (l : List α) (f : α → Option β)
    (g : α → β) (h : ∀ a ∈ l, f a = some (g a)) : l.filterMap f = l.map g := by
  induction l with
  | nil => simp
  | cons a rest ih =>
    have h1 := h a (List.mem_cons_self a rest)
    simp [List.filterMap_cons, h1,
      ih (fun a2 ha2 => h a2 (List.mem_cons_of_mem _ ha2))]

theorem evictStale_freshened (t : Trie) (now th : Nat) (h : PoolsNonempty t) :
    (evictStale ⟨t.entries.map (fun kp => (kp.1, kp.2.markUpdated now))⟩ now th).entries
      = t.entries.map (fun kp => (kp.1, kp.2.markUpdated now)) := by
  simp only [evictStale, evictEntries]
  rw [filterMap_eq_map_of_forall _ _ id, List.map_id]
  intro a ha
  simp only [List.mem_map] at ha
  obtain ⟨kp, hkp, hk⟩ := ha
  rw [← hk]
  have h3 : (kp.2.markUpdated now).isEmpty = false := by
    rw [markUpdated_isEmpty]
    exact h kp hkp
  simp [pruneEndpoints_markUpdated, h3]

/-- C7: on a tick where the suspend predicate is false and the previous
status was DISCONNECTED, the bulk refresh runs first — every endpoint's
timestamp becomes now — the status becomes CONNECTED, and the eviction
pass that follows removes nothing: the table afterwards is exactly the
old table with every endpoint marked updated. -/
theorem reconnect_tick_refreshes (r : RouteRegistry) (now : Nat)
    (hs : r.suspendPruning = false)
    (hd : r.pruningStatus = PruneStatus.DISCONNECTED)
    (h : PoolsNonempty r.byUri) :
    (pruneStaleDroplets r now).pruningStatus = PruneStatus.CONNECTED ∧
    (pruneStaleDroplets r now).byUri.entries =
      r.byUri.entries.map (fun kp => (kp.1, kp.2.markUpdated now)) := by
  constructor
  · simp [pruneStaleDroplets, hs, hd]
  · simp only [pruneStaleDroplets, hs, hd, Bool.false_eq_true, if_false,
      if_pos, freshenRoutes]
    exact evictStale_freshened r.byUri now r.dropletStaleThreshold h

/-- A registry one endpoint strong whose pruning status is DISCONNECTED
and whose suspend predicate returns false. -/
def rDisc : RouteRegistry :=
  { NewRouteRegistry with
      pruningStatus := PruneStatus.DISCONNECTED
      byUri := ⟨[(RouteKey "foo.example.com", poolEx)]⟩ }

/-- Closed witness for C7 at the concrete disconnected one-endpoint
registry, ticking at time 7. -/
theorem reconnect_tick_refreshes_witness :
    (pruneStaleDroplets rDisc 7).pruningStatus = PruneStatus.CONNECTED ∧
    (pruneStaleDroplets rDisc 7).byUri.entries =
      rDisc.byUri.entries.map (fun kp => (kp.1, kp.2.markUpdated 7)) :=
  reconnect_tick_refreshes rDisc 7 rfl rfl
    (by
      intro kp hkp
      simp [rDisc] at hkp
      rw [hkp]
      rfl)

/-- C8: a registry message validates exactly when its route-service URL is
empty or begins with the literal prefix "https"; a message failing that
check, like one failing JSON decode, is rejected at the adapter boundary
and triggers no Register or Unregister for any of its URIs. -/
theorem route_service_url_validation (m : RegistryMessage) (r : RouteRegistry)
    (now : Nat) :
    (m.validateMessage = true ↔
      m.routeServiceUrl = "" ∨ "https".toList <+: m.routeServiceUrl.toList) ∧
    (m.validateMessage = false →
      registerRoute r now (some m) = r ∧ unregisterRoute r now (some m) = r) ∧
    registerRoute r now none = r ∧ unregisterRoute r now none = r := by
  refine ⟨?_, ?_, rfl, rfl⟩
  · simp [RegistryMessage.validateMessage, hasPfx, List.isPrefixOf_iff_prefix]
  · intro hv
    constructor <;>
      simp [registerRoute, unregisterRoute, createRegistryMessage, hv]

/-- A concrete inbound message with a non-https route-service URL. -/
def mBad : RegistryMessage :=
  { host := "10.0.0.1"
    port := 6060
    uris := ["foo.example.com"]
    tags := []
    app := "app1"
    staleThresholdInSeconds := 0
    routeServiceUrl := "http://x"
    privateInstanceId := "id1"
    privateInstanceIndex := "0" }

/-- Closed witness for C8: the concrete message with URL "http://x" fails
validation and leaves the registry untouched on both paths. -/
theorem route_service_url_validation_witness :
    mBad.validateMessage = false ∧
    registerRoute NewRouteRegistry 0 (some mBad) = NewRouteRegistry ∧
    unregisterRoute NewRouteRegistry 0 (some mBad) = NewRouteRegistry := by
  have hv : mBad.validateMessage = false := by decide
  have h := (route_service_url_validation mBad NewRouteRegistry 0).2.1 hv
  exact ⟨hv, h.1, h.2⟩

end RouterLite
